import Mathlib

/-!
Shallow embedding of `convert.py`, a board-format conversion tool.

Text is modelled as `List Char`.  A file's contents are modelled as the
list of its lines, each line given without its trailing newline
character (Python iterates a file line by line and the code immediately
calls `line.strip()`, which removes the trailing newline together with
any other surrounding whitespace; the `pyStrip` function below performs
that full strip).  Python `str.split(sep)` for the one-character
separators used by the code (`","`, `":"`, `" "`, `"="`, and `"\n"`) is
modelled by `pySplit`, Python `"sep".join` by `joinSep`, Python `int(s)`
by `pyInt` (ASCII digits with an optional sign, surrounding whitespace
allowed), and Python's f-string rendering of an integer by `intRepr`.
Python code that can raise an exception is modelled with `Option`:
`none` means the operation raises and the run aborts.
-/

/-- Characters stripped by Python `str.strip()` (the ASCII whitespace set). -/
def pyIsSpace (c : Char) : Bool :=
  c = ' ' || c = '\t' || c = '\n' || c = '\r' || c = '\x0b' || c = '\x0c'

/-- Python `s.strip()`: remove leading and trailing whitespace. -/
def pyStrip (s : List Char) : List Char :=
  ((s.dropWhile pyIsSpace).reverse.dropWhile pyIsSpace).reverse

/-- Python `s.split(sep)` for a one-character separator `sep`:
splits at every occurrence, keeping empty pieces; the result is never empty. -/
def pySplit (c : Char) : List Char → List (List Char)
  | [] => [[]]
  | x :: xs =>
    if x = c then [] :: pySplit c xs
    else
      match pySplit c xs with
      | [] => [[x]]
      | r :: rs => (x :: r) :: rs

/-- Python `sep.join(parts)`. -/
def joinSep (sep : List Char) : List (List Char) → List Char
  | [] => []
  | [t] => t
  | t :: t' :: ts => t ++ sep ++ joinSep sep (t' :: ts)

/-- Numeric value of a decimal digit character. -/
def digitVal (c : Char) : Nat := c.toNat - '0'.toNat

/-- Left-to-right accumulation of a decimal digit string. -/
def parseNat (cs : List Char) : Nat :=
  cs.foldl (fun a c => a * 10 + digitVal c) 0

/-- A non-empty all-digit string. -/
def isDigits (cs : List Char) : Bool :=
  !cs.isEmpty && cs.all Char.isDigit

/-- Python `int(s)` after stripping: optional sign followed by digits. -/
def pyIntCore (cs : List Char) : Option Int :=
  match cs with
  | [] => none
  | c :: rest =>
    if c = '+' then
      if isDigits rest then some (Int.ofNat (parseNat rest)) else none
    else if c = '-' then
      if isDigits rest then some (-(Int.ofNat (parseNat rest))) else none
    else if isDigits (c :: rest) then some (Int.ofNat (parseNat (c :: rest)))
    else none

/-- Python `int(s)`: surrounding whitespace is ignored, then an optional
sign and a non-empty run of decimal digits; anything else raises. -/
def pyInt (s : List Char) : Option Int :=
  pyIntCore (pyStrip s)

/-- Decimal rendering of a natural number, fuelled to stay structurally
recursive; `fuel` bounds the number of digits produced. -/
def natReprAux : Nat → Nat → List Char
  | 0, _ => []
  | fuel + 1, n =>
    if n < 10 then [Nat.digitChar n]
    else natReprAux fuel (n / 10) ++ [Nat.digitChar (n % 10)]

/-- Decimal rendering of a natural number (as Python `str` writes it). -/
def natRepr (n : Nat) : List Char := natReprAux (n + 1) n

/-- Python's f-string rendering of an `int`: a minus sign for negative
values followed by the decimal digits. -/
def intRepr (i : Int) : List Char :=
  if i < 0 then '-' :: natRepr i.natAbs else natRepr i.natAbs

/-- Run `f` over a list, failing as soon as one element fails; this is the
shape of a Python list comprehension whose body may raise. -/
def mapOpt (f : α → Option β) : List α → Option (List β)
  | [] => some []
  | x :: xs =>
    match f x with
    | none => none
    | some y => (mapOpt f xs).map (fun ys => y :: ys)

/-- Ascending sort used for `chips_asc` (`column.sort()` in `__init__`). -/
def sortAsc (col : List Int) : List Int :=
  List.insertionSort (fun a b : Int => a ≤ b) col

/-- Descending sort used for `chips_desc` (`column.sort(reverse=True)`). -/
def sortDesc (col : List Int) : List Int :=
  List.insertionSort (fun a b : Int => b ≤ a) col

/-- The two file formats (`class DataType(Enum)`). -/
inductive DataType where
  | OLD : DataType
  | NEW : DataType
deriving DecidableEq, Repr

/-- A board (`class Board`): dimensions, the two sorted copies of the
columns kept by `__init__`, and the goal. -/
structure Board where
  n : Int
  k : Int
  chips_asc : List (List Int)
  chips_desc : List (List Int)
  goal : Int
deriving DecidableEq, Repr

/-- `Board.__init__(n, k, chips, goal)`: store an ascending-sorted and a
descending-sorted copy of the given columns. -/
def mkBoard (n k : Int) (chips : List (List Int)) (goal : Int) : Board :=
  { n := n
    k := k
    chips_asc := chips.map sortAsc
    chips_desc := chips.map sortDesc
    goal := goal }

/-- `Board.calc_max_row`: `max(column[0] for column in self.chips_desc)`.
`none` models the `IndexError` raised on an empty column and the
`ValueError` raised by `max` on an empty sequence. -/
def Board.calc_max_row (b : Board) : Option Int :=
  (mapOpt List.head? b.chips_desc).bind List.max?

/-- `Board.calc_num_chips`: the number of values `>= 0` over all columns. -/
def Board.calc_num_chips (b : Board) : Nat :=
  (b.chips_asc.map (fun column => (column.filter (fun r => decide (0 ≤ r))).length)).sum

/-- `Board.fromString(datatype, lines)`; `none` models any exception
raised while parsing (bad header, bad token, missing `lines[0]`). -/
def Board.fromString (datatype : DataType) (lines : List (List Char)) : Option Board :=
  match datatype with
  | .OLD =>
    match lines with
    | [] => none
    | l0 :: rest =>
      match mapOpt pyInt (pySplit ',' l0) with
      | some [n, k, goal, _max_row, _num_chips] =>
        (mapOpt (fun column =>
            mapOpt (fun r => pyInt (pySplit ':' r).headI) (pySplit ' ' column)) rest).map
          (fun chips => mkBoard n k chips goal)
      | _ => none
  | .NEW =>
    match lines with
    | [] => none
    | l0 :: rest =>
      match mapOpt (fun x => ((pySplit '=' x).get? 1).bind pyInt) (pySplit ',' l0) with
      | some [n, k, _num_chips] =>
        (mapOpt (fun column => mapOpt pyInt (pySplit ' ' column)) rest).map
          (fun chips => mkBoard n k chips 0)
      | _ => none

/-- One body line of the old format: values rendered `r:0`, space-joined. -/
def oldColLine (column : List Int) : List Char :=
  joinSep [' '] (column.map (fun r => intRepr r ++ [':', '0']))

/-- One body line of the new format: values rendered bare, space-joined. -/
def newColLine (column : List Int) : List Char :=
  joinSep [' '] (column.map intRepr)

/-- `Board.toString(datatype)`; `none` models the exception propagating out
of `calc_max_row` while the old-format header is being built. -/
def Board.toString (datatype : DataType) (b : Board) : Option (List Char) :=
  match datatype with
  | .OLD =>
    (Board.calc_max_row b).map (fun max_row =>
      joinSep [',']
        [intRepr b.n, intRepr b.k, intRepr b.goal, intRepr max_row,
         natRepr (Board.calc_num_chips b)]
      ++ '\n' :: joinSep ['\n'] (b.chips_asc.map oldColLine))
  | .NEW =>
    some
      ("n=".data ++ intRepr b.n ++ ",k=".data ++ intRepr b.k
        ++ ",n_chips=".data ++ natRepr (Board.calc_num_chips b)
        ++ '\n' :: joinSep ['\n'] (b.chips_desc.map newColLine))

/-- The record-splitting loop of `file_to_boards`: every line is stripped;
a stripped line equal to the separator emits the buffered record (possibly
empty); the final buffer is emitted only when non-empty. -/
def toRecordsAux (sep : List Char) (buffer : List (List Char)) :
    List (List Char) → List (List (List Char))
  | [] => if buffer.isEmpty then [] else [buffer]
  | l :: ls =>
    let s := pyStrip l
    if s = sep then buffer :: toRecordsAux sep [] ls
    else toRecordsAux sep (buffer ++ [s]) ls

/-- The records cut out of the input lines by `file_to_boards`. -/
def toRecords (sep : List Char) (lines : List (List Char)) : List (List (List Char)) :=
  toRecordsAux sep [] lines

/-- `file_to_boards`: split the input into records and parse each one;
`none` models the exception that aborts the run on the first bad record. -/
def file_to_boards (datatype : DataType) (sep : List Char)
    (lines : List (List Char)) : Option (List Board) :=
  mapOpt (Board.fromString datatype) (toRecords sep lines)

/-- The conversion direction selected by `--direction`. -/
inductive Direction where
  | oldToNew : Direction
  | newToOld : Direction
deriving DecidableEq, Repr

/-- Source format for a direction (`file_to_boards`). -/
def srcType : Direction → DataType
  | .oldToNew => .OLD
  | .newToOld => .NEW

/-- Target format for a direction (`boards_to_file`). -/
def tgtType : Direction → DataType
  | .oldToNew => .NEW
  | .newToOld => .OLD

/-- The chunks `boards_to_file` writes to the output file, in order; the
list stops at the first exception (`int(args.goal)` failing or
`toString` raising), after which nothing more is written. -/
def boards_to_file_writes (datatype : DataType) (goalStr : List Char)
    (osep : List Char) : List Board → List (List Char)
  | [] => []
  | b :: bs =>
    match
      (match datatype with
       | .OLD => (pyInt goalStr).map (fun g => { b with goal := g })
       | .NEW => some b) with
    | none => []
    | some b' =>
      match Board.toString datatype b' with
      | none => []
      | some s =>
        s :: ['\n'] :: osep :: ['\n'] :: boards_to_file_writes datatype goalStr osep bs

/-- The `__main__` orchestration: parse the whole input with
`file_to_boards`, and only if that succeeds open the output file and
write; the result is the list of chunks written to the output file. -/
def convert_writes (d : Direction) (goalStr isep osep : List Char)
    (input : List (List Char)) : List (List Char) :=
  match file_to_boards (srcType d) isep input with
  | none => []
  | some boards => boards_to_file_writes (tgtType d) goalStr osep boards

/-- Modelled from the spec (claim C2's wording): the minimum, across
columns, of each column's first element after sorting descending. -/
def calcMaxRowClaim (b : Board) : Option Int :=
  (mapOpt List.head? b.chips_desc).bind List.min?

/-- Modelled from the spec's serializer contract: the maximum, over all
columns, of the column's largest value. -/
def maxRowSpec (chips : List (List Int)) : Option Int :=
  (mapOpt List.max? chips).bind List.max?

/-- Modelled from the spec: the count of values `>= 0` summed across the
columns as parsed from the input. -/
def numChipsSpec (chips : List (List Int)) : Nat :=
  (chips.map (fun column => column.countP (fun r => decide (0 ≤ r)))).sum

/-- Modelled from the spec's record-reader contract (and claim C5's
wording): split exactly on lines character-for-character equal to the
separator, keeping content lines as read; the trailing record is emitted
only when non-empty. -/
def exactSplitRecordsAux (sep : List Char) (buffer : List (List Char)) :
    List (List Char) → List (List (List Char))
  | [] => if buffer.isEmpty then [] else [buffer]
  | l :: ls =>
    if l = sep then buffer :: exactSplitRecordsAux sep [] ls
    else exactSplitRecordsAux sep (buffer ++ [l]) ls

/-- Record splitting as the spec words it: cut on exact separator lines. -/
def exactSplitRecords (sep : List Char) (lines : List (List Char)) :
    List (List (List Char)) :=
  exactSplitRecordsAux sep [] lines

/-! ### Digit rendering and parsing round trip -/

lemma digitVal_digitChar : ∀ d, d < 10 → digitVal (Nat.digitChar d) = d := by decide

lemma isDigit_digitChar : ∀ d, d < 10 → (Nat.digitChar d).isDigit = true := by decide

lemma parseNat_nil : parseNat [] = 0 := rfl

lemma parseNat_append_digit (xs : List Char) (c : Char) :
    parseNat (xs ++ [c]) = parseNat xs * 10 + digitVal c := by
  simp [parseNat, List.foldl_append]

lemma parseNat_natReprAux : ∀ fuel n, n < 10 ^ fuel → parseNat (natReprAux fuel n) = n := by
  intro fuel
  induction fuel with
  | zero =>
    intro n h
    interval_cases n
    rfl
  | succ fuel ih =>
    intro n h
    by_cases h10 : n < 10
    · have : parseNat [Nat.digitChar n] = digitVal (Nat.digitChar n) := by
        simp [parseNat]
      simp [natReprAux, h10, this, digitVal_digitChar n h10]
    · rw [natReprAux, if_neg h10, parseNat_append_digit,
        ih (n / 10) (by rw [Nat.div_lt_iff_lt_mul (by norm_num)]; rw [pow_succ] at h; exact h),
        digitVal_digitChar (n % 10) (Nat.mod_lt n (by norm_num))]
      omega

lemma mem_natReprAux_isDigit :
    ∀ fuel n c, c ∈ natReprAux fuel n → c.isDigit = true := by
  intro fuel
  induction fuel with
  | zero => intro n c h; simp [natReprAux] at h
  | succ fuel ih =>
    intro n c h
    by_cases h10 : n < 10
    · rw [natReprAux, if_pos h10] at h
      simp at h
      subst h
      exact isDigit_digitChar n h10
    · rw [natReprAux, if_neg h10] at h
      rcases List.mem_append.1 h with h1 | h1
      · exact ih _ _ h1
      · simp at h1
        subst h1
        exact isDigit_digitChar (n % 10) (Nat.mod_lt n (by norm_num))

lemma natReprAux_ne_nil (fuel n : Nat) (h : fuel ≠ 0) : natReprAux fuel n ≠ [] := by
  cases fuel with
  | zero => exact absurd rfl h
  | succ fuel =>
    rw [natReprAux]
    by_cases h10 : n < 10 <;> simp [h10]

lemma lt_ten_pow (n : Nat) : n < 10 ^ (n + 1) :=
  lt_of_lt_of_le (Nat.lt_pow_self (by norm_num) n)
    (Nat.pow_le_pow_right (by norm_num) (Nat.le_succ n))

lemma parseNat_natRepr (n : Nat) : parseNat (natRepr n) = n :=
  parseNat_natReprAux (n + 1) n (lt_ten_pow n)

lemma natRepr_ne_nil (n : Nat) : natRepr n ≠ [] :=
  natReprAux_ne_nil (n + 1) n (Nat.succ_ne_zero n)

lemma mem_natRepr_isDigit (n : Nat) (c : Char) (h : c ∈ natRepr n) : c.isDigit = true :=
  mem_natReprAux_isDigit (n + 1) n c h

lemma mem_intRepr (i : Int) (c : Char) (h : c ∈ intRepr i) :
    c.isDigit = true ∨ c = '-' := by
  rw [intRepr] at h
  by_cases hneg : i < 0
  · rw [if_pos hneg] at h
    rcases List.mem_cons.1 h with h1 | h1
    · exact Or.inr h1
    · exact Or.inl (mem_natRepr_isDigit _ _ h1)
  · rw [if_neg hneg] at h
    exact Or.inl (mem_natRepr_isDigit _ _ h)

lemma isDigit_not_space (c : Char) (h : c.isDigit = true) : pyIsSpace c = false := by
  revert h
  have : pyIsSpace c = true → c.isDigit = false := by
    intro hs
    simp only [pyIsSpace, Bool.or_eq_true, decide_eq_true_eq] at hs
    rcases hs with ((((h1 | h1) | h1) | h1) | h1) | h1 <;> subst h1 <;> decide
  intro h
  cases hsp : pyIsSpace c with
  | false => rfl
  | true => rw [this hsp] at h; exact absurd h (by simp)

lemma dropWhile_eq_self_of_forall {p : Char → Bool} (l : List Char)
    (h : ∀ c ∈ l, p c = false) : l.dropWhile p = l := by
  cases l with
  | nil => rfl
  | cons x xs => simp [List.dropWhile, h x (List.mem_cons_self x xs)]

lemma pyStrip_eq_self (s : List Char) (h : ∀ c ∈ s, pyIsSpace c = false) :
    pyStrip s = s := by
  rw [pyStrip, dropWhile_eq_self_of_forall s h,
    dropWhile_eq_self_of_forall s.reverse (fun c hc => h c (List.mem_reverse.1 hc)),
    List.reverse_reverse]

lemma isDigits_natRepr (n : Nat) : isDigits (natRepr n) = true := by
  simp only [isDigits, Bool.and_eq_true, Bool.not_eq_true']
  constructor
  · simpa [List.isEmpty_iff] using natRepr_ne_nil n
  · exact List.all_eq_true.2 (fun c hc => mem_natRepr_isDigit n c hc)

lemma pyStrip_natRepr (n : Nat) : pyStrip (natRepr n) = natRepr n :=
  pyStrip_eq_self _ (fun c hc => isDigit_not_space c (mem_natRepr_isDigit n c hc))

lemma pyStrip_intRepr (i : Int) : pyStrip (intRepr i) = intRepr i := by
  refine pyStrip_eq_self _ (fun c hc => ?_)
  rcases mem_intRepr i c hc with h | h
  · exact isDigit_not_space c h
  · subst h; rfl

lemma head_natRepr_not_sign (n : Nat) (c : Char) (rest : List Char)
    (h : natRepr n = c :: rest) : c ≠ '+' ∧ c ≠ '-' := by
  have hd : c.isDigit = true := mem_natRepr_isDigit n c (by rw [h]; exact List.mem_cons_self c rest)
  constructor <;> intro hc <;> subst hc <;> exact absurd hd (by decide)

lemma pyIntCore_natRepr (n : Nat) : pyIntCore (natRepr n) = some (Int.ofNat n) := by
  rcases hrep : natRepr n with _ | ⟨c, rest⟩
  · exact absurd hrep (natRepr_ne_nil n)
  · obtain ⟨hp, hm⟩ := head_natRepr_not_sign n c rest hrep
    rw [pyIntCore, if_neg hp, if_neg hm, if_pos (hrep ▸ isDigits_natRepr n), ← hrep,
      parseNat_natRepr]

lemma pyInt_natRepr (n : Nat) : pyInt (natRepr n) = some (Int.ofNat n) := by
  rw [pyInt, pyStrip_natRepr, pyIntCore_natRepr]

lemma pyInt_intRepr (i : Int) : pyInt (intRepr i) = some i := by
  rw [pyInt, pyStrip_intRepr, intRepr]
  by_cases hneg : i < 0
  · rw [if_pos hneg]
    rcases hrep : natRepr i.natAbs with _ | ⟨c, rest⟩
    · exact absurd hrep (natRepr_ne_nil _)
    · rw [pyIntCore, if_neg (by decide), if_pos rfl, if_pos (hrep ▸ isDigits_natRepr _), ← hrep,
        parseNat_natRepr]
      congr 1
      simp only [Int.ofNat_eq_natCast]
      omega
  · rw [if_neg hneg, pyIntCore_natRepr]
    congr 1
    simp only [Int.ofNat_eq_natCast]
    omega

/-! ### Splitting and joining -/

lemma pySplit_ne_nil (c : Char) : ∀ s, pySplit c s ≠ [] := by
  intro s
  induction s with
  | nil => simp [pySplit]
  | cons x xs ih =>
    rw [pySplit]
    by_cases hx : x = c
    · simp [hx]
    · rw [if_neg hx]
      rcases h : pySplit c xs with _ | ⟨r, rs⟩ <;> simp

lemma pySplit_no_sep (c : Char) (s : List Char) (h : c ∉ s) : pySplit c s = [s] := by
  induction s with
  | nil => rfl
  | cons x xs ih =>
    have hx : x ≠ c := fun hxc => h (hxc ▸ List.mem_cons_self x xs)
    rw [pySplit, if_neg hx, ih (fun hc => h (List.mem_cons_of_mem x hc))]

lemma pySplit_sep_cons (c : Char) (rest : List Char) :
    pySplit c (c :: rest) = [] :: pySplit c rest := by
  rw [pySplit, if_pos rfl]

lemma pySplit_append_sep (c : Char) (t rest : List Char) (h : c ∉ t) :
    pySplit c (t ++ c :: rest) = t :: pySplit c rest := by
  induction t with
  | nil => simpa using pySplit_sep_cons c rest
  | cons x xs ih =>
    have hx : x ≠ c := fun hxc => h (hxc ▸ List.mem_cons_self x xs)
    rw [List.cons_append, pySplit, if_neg hx, ih (fun hc => h (List.mem_cons_of_mem x hc))]

lemma joinSep_cons_cons (sep : List Char) (t t' : List Char) (ts : List (List Char)) :
    joinSep sep (t :: t' :: ts) = t ++ sep ++ joinSep sep (t' :: ts) := rfl

lemma pySplit_joinSep (c : Char) :
    ∀ toks, toks ≠ [] → (∀ t ∈ toks, c ∉ t) →
      pySplit c (joinSep [c] toks) = toks := by
  intro toks
  induction toks with
  | nil => intro h; exact absurd rfl h
  | cons t ts ih =>
    intro _ hmem
    cases ts with
    | nil => exact pySplit_no_sep c t (hmem t (List.mem_cons_self t []))
    | cons t' ts' =>
      rw [joinSep_cons_cons, List.append_assoc, List.singleton_append,
        pySplit_append_sep c t _ (hmem t (List.mem_cons_self t _)),
        ih (by simp) (fun u hu => hmem u (List.mem_cons_of_mem t hu))]

lemma mem_joinSep (sep : List Char) :
    ∀ (toks : List (List Char)) (c : Char), c ∈ joinSep sep toks →
      c ∈ sep ∨ ∃ t ∈ toks, c ∈ t := by
  intro toks
  induction toks with
  | nil => intro c h; simp [joinSep] at h
  | cons t ts ih =>
    intro c h
    cases ts with
    | nil => exact Or.inr ⟨t, List.mem_cons_self t [], h⟩
    | cons t' ts' =>
      rw [joinSep_cons_cons, List.append_assoc] at h
      rcases List.mem_append.1 h with h1 | h1
      · exact Or.inr ⟨t, List.mem_cons_self t _, h1⟩
      · rcases List.mem_append.1 h1 with h2 | h2
        · exact Or.inl h2
        · rcases ih c h2 with h3 | ⟨u, hu, hcu⟩
          · exact Or.inl h3
          · exact Or.inr ⟨u, List.mem_cons_of_mem t hu, hcu⟩

/-! ### `mapOpt` -/

lemma mapOpt_nil (f : α → Option β) : mapOpt f [] = some [] := rfl

lemma mapOpt_cons (f : α → Option β) (x : α) (xs : List α) :
    mapOpt f (x :: xs) =
      match f x with
      | none => none
      | some y => (mapOpt f xs).map (fun ys => y :: ys) := rfl

lemma mapOpt_eq_none_iff (f : α → Option β) (xs : List α) :
    mapOpt f xs = none ↔ ∃ x ∈ xs, f x = none := by
  induction xs with
  | nil => simp [mapOpt]
  | cons x xs ih =>
    rw [mapOpt_cons]
    rcases hfx : f x with _ | y
    · simp [hfx]
    · rcases hxs : mapOpt f xs with _ | ys
      · simpa [hfx, Option.map, hxs] using ih.1 hxs
      · simp only [hxs, Option.map_some, List.mem_cons]
        constructor
        · intro h; exact absurd h (by simp)
        · rintro ⟨u, hu | hu, hfu⟩
          · rw [hu, hfx] at hfu; exact absurd hfu (by simp)
          · exact absurd (ih.2 ⟨u, hu, hfu⟩) (by simp [hxs])

lemma mapOpt_eq_none_of_mem (f : α → Option β) (xs : List α) (x : α)
    (hx : x ∈ xs) (hfx : f x = none) : mapOpt f xs = none :=
  (mapOpt_eq_none_iff f xs).2 ⟨x, hx, hfx⟩

lemma mapOpt_congr_some (f : α → Option β) (g : α → β) :
    ∀ xs : List α, (∀ x ∈ xs, f x = some (g x)) → mapOpt f xs = some (xs.map g) := by
  intro xs
  induction xs with
  | nil => intro _; rfl
  | cons x xs ih =>
    intro h
    rw [mapOpt_cons, h x (List.mem_cons_self x xs),
      ih (fun u hu => h u (List.mem_cons_of_mem x hu))]
    rfl

lemma mapOpt_map (f : β → Option γ) (g : α → β) (xs : List α) :
    mapOpt f (xs.map g) = mapOpt (fun x => f (g x)) xs := by
  induction xs with
  | nil => rfl
  | cons x xs ih => rw [List.map_cons, mapOpt_cons, mapOpt_cons, ih]

lemma mapOpt_length (f : α → Option β) :
    ∀ (xs : List α) (ys : List β), mapOpt f xs = some ys → ys.length = xs.length := by
  intro xs
  induction xs with
  | nil => intro ys h; simp [mapOpt] at h; simp [← h]
  | cons x xs ih =>
    intro ys h
    rw [mapOpt_cons] at h
    rcases hfx : f x with _ | y
    · rw [hfx] at h; exact absurd h (by simp)
    · rw [hfx] at h
      rcases hxs : mapOpt f xs with _ | ys'
      · rw [hxs] at h; exact absurd h (by simp)
      · rw [hxs] at h
        have h2 : some (y :: ys') = some ys := h
        have h3 : y :: ys' = ys := by injection h2
        rw [← h3, List.length_cons, ih ys' hxs, List.length_cons]

/-! ### Sorting -/

instance : IsTotal Int (fun a b : Int => a ≤ b) := ⟨fun a b => le_total a b⟩

instance : IsTrans Int (fun a b : Int => a ≤ b) := ⟨fun _ _ _ h1 h2 => le_trans h1 h2⟩

instance : IsAntisymm Int (fun a b : Int => a ≤ b) := ⟨fun _ _ h1 h2 => le_antisymm h1 h2⟩

instance : IsTotal Int (fun a b : Int => b ≤ a) := ⟨fun a b => le_total b a⟩

instance : IsTrans Int (fun a b : Int => b ≤ a) := ⟨fun _ _ _ h1 h2 => le_trans h2 h1⟩

lemma sortAsc_perm (col : List Int) : List.Perm (sortAsc col) col :=
  List.perm_insertionSort _ col

lemma sortDesc_perm (col : List Int) : List.Perm (sortDesc col) col :=
  List.perm_insertionSort _ col

lemma sortAsc_sorted (col : List Int) : List.Sorted (fun a b : Int => a ≤ b) (sortAsc col) :=
  List.sorted_insertionSort _ col

lemma sortDesc_sorted (col : List Int) : List.Sorted (fun a b : Int => b ≤ a) (sortDesc col) :=
  List.sorted_insertionSort _ col

lemma sortAsc_eq_reverse_sortDesc (col : List Int) :
    sortAsc col = (sortDesc col).reverse := by
  refine List.eq_of_perm_of_sorted
    ((sortAsc_perm col).trans ((sortDesc_perm col).symm.trans (sortDesc col).reverse_perm.symm))
    (sortAsc_sorted col) ?_
  exact (List.pairwise_reverse).2 (sortDesc_sorted col)

lemma int_max?_eq_some_iff (xs : List Int) (a : Int) :
    xs.max? = some a ↔ a ∈ xs ∧ ∀ b ∈ xs, b ≤ a := by
  haveI : Std.Antisymm (fun a b : Int => a ≤ b) := ⟨fun h1 h2 => le_antisymm h1 h2⟩
  exact List.max?_eq_some_iff (fun a => le_refl a) (fun a b => max_choice a b)
    (fun a b c => max_le_iff)

lemma head?_sortDesc_eq_max? (col : List Int) : (sortDesc col).head? = col.max? := by
  rcases hs : sortDesc col with _ | ⟨a, rest⟩
  · have : col = [] := by
      have := sortDesc_perm col
      rw [hs] at this
      exact this.symm.eq_nil
    rw [this]
    rfl
  · have hperm : List.Perm col (a :: rest) := (sortDesc_perm col).symm.trans (by rw [hs])
    have hsorted : List.Sorted (fun a b : Int => b ≤ a) (a :: rest) := hs ▸ sortDesc_sorted col
    rw [List.head?_cons, eq_comm, int_max?_eq_some_iff]
    constructor
    · exact hperm.symm.mem_iff.1 (List.mem_cons_self a rest)
    · intro b hb
      rcases List.mem_cons.1 (hperm.mem_iff.1 hb) with h1 | h1
      · exact le_of_eq h1
      · exact List.rel_of_sorted_cons hsorted b h1

lemma mapOpt_ext (f g : α → Option β) :
    ∀ xs : List α, (∀ x ∈ xs, f x = g x) → mapOpt f xs = mapOpt g xs := by
  intro xs
  induction xs with
  | nil => intro _; rfl
  | cons x xs ih =>
    intro h
    rw [mapOpt_cons, mapOpt_cons, h x (List.mem_cons_self x xs),
      ih (fun u hu => h u (List.mem_cons_of_mem x hu))]

lemma mapOpt_ne_none (f : α → Option β) (xs : List α)
    (h : ∀ x ∈ xs, f x ≠ none) : ∃ ys, mapOpt f xs = some ys := by
  rcases hm : mapOpt f xs with _ | ys
  · rcases (mapOpt_eq_none_iff f xs).1 hm with ⟨x, hx, hfx⟩
    exact absurd hfx (h x hx)
  · exact ⟨ys, rfl⟩

lemma max?_isSome_of_ne_nil (xs : List Int) (h : xs ≠ []) : ∃ a, xs.max? = some a := by
  cases xs with
  | nil => exact absurd rfl h
  | cons x xs => exact ⟨xs.foldl max x, rfl⟩

/-- The code's derived max row equals the spec's: the maximum, over the
columns as given to the constructor, of the column's largest value. -/
lemma calc_max_row_mkBoard (n k goal : Int) (chips : List (List Int)) :
    Board.calc_max_row (mkBoard n k chips goal) = maxRowSpec chips := by
  rw [Board.calc_max_row, mkBoard, maxRowSpec]
  simp only
  rw [mapOpt_map]
  rw [mapOpt_ext (fun x => (sortDesc x).head?) List.max? chips
    (fun col _ => head?_sortDesc_eq_max? col)]

/-- The code's derived chip count equals the spec's: the number of
non-negative values over the columns as given to the constructor. -/
lemma calc_num_chips_mkBoard (n k goal : Int) (chips : List (List Int)) :
    Board.calc_num_chips (mkBoard n k chips goal) = numChipsSpec chips := by
  rw [Board.calc_num_chips, mkBoard, numChipsSpec]
  simp only [List.map_map]
  congr 1
  refine List.map_congr_left (fun col _ => ?_)
  simp only [Function.comp]
  rw [← List.countP_eq_length_filter, (sortAsc_perm col).countP_eq]

lemma chips_asc_eq_map_reverse_desc (n k goal : Int) (chips : List (List Int)) :
    (mkBoard n k chips goal).chips_asc =
      (mkBoard n k chips goal).chips_desc.map List.reverse := by
  rw [mkBoard]
  simp only [List.map_map]
  exact List.map_congr_left (fun col _ => by
    simp only [Function.comp]
    exact sortAsc_eq_reverse_sortDesc col)

lemma sortAsc_ne_nil (col : List Int) (h : col ≠ []) : sortAsc col ≠ [] := by
  intro hnil
  have := sortAsc_perm col
  rw [hnil] at this
  exact h this.symm.eq_nil

lemma sortDesc_ne_nil (col : List Int) (h : col ≠ []) : sortDesc col ≠ [] := by
  intro hnil
  have := sortDesc_perm col
  rw [hnil] at this
  exact h this.symm.eq_nil

lemma maxRowSpec_isSome (chips : List (List Int)) (h1 : chips ≠ [])
    (h2 : ∀ col ∈ chips, col ≠ []) : ∃ M, maxRowSpec chips = some M := by
  rw [maxRowSpec]
  obtain ⟨ms, hms⟩ := mapOpt_ne_none List.max? chips (fun col hc => by
    obtain ⟨a, ha⟩ := max?_isSome_of_ne_nil col (h2 col hc)
    simp [ha])
  rw [hms, Option.some_bind]
  exact max?_isSome_of_ne_nil ms (by
    intro hnil
    exact h1 (by
      have := mapOpt_length List.max? chips ms hms
      rw [hnil] at this
      exact List.length_eq_zero.1 this.symm))

/-! ### Characters appearing in rendered fields -/

lemma not_mem_natRepr (n : Nat) (c : Char) (h : c.isDigit = false) : c ∉ natRepr n := by
  intro hc
  rw [mem_natRepr_isDigit n c hc] at h
  exact absurd h (by simp)

lemma not_mem_intRepr (i : Int) (c : Char) (h1 : c.isDigit = false) (h2 : c ≠ '-') :
    c ∉ intRepr i := by
  intro hc
  rcases mem_intRepr i c hc with h | h
  · rw [h] at h1; exact absurd h1 (by simp)
  · exact h2 h

lemma mapOpt_mem (f : α → Option β) :
    ∀ (xs : List α) (ys : List β), mapOpt f xs = some ys →
      ∀ y ∈ ys, ∃ x ∈ xs, f x = some y := by
  intro xs
  induction xs with
  | nil =>
    intro ys h y hy
    rw [mapOpt_nil] at h
    obtain rfl : ([] : List β) = ys := by injection h
    simp at hy
  | cons x xs ih =>
    intro ys h y hy
    rw [mapOpt_cons] at h
    rcases hfx : f x with _ | z
    · rw [hfx] at h; exact absurd h (by simp)
    · rw [hfx] at h
      rcases hxs : mapOpt f xs with _ | ys'
      · rw [hxs] at h; exact absurd h (by simp)
      · rw [hxs] at h
        have h2 : some (z :: ys') = some ys := h
        have h3 : z :: ys' = ys := by injection h2
        rcases List.mem_cons.1 (h3 ▸ hy) with h4 | h4
        · exact ⟨x, List.mem_cons_self x xs, h4 ▸ hfx⟩
        · obtain ⟨u, hu, hfu⟩ := ih ys' hxs y h4
          exact ⟨u, List.mem_cons_of_mem x hu, hfu⟩

lemma sortAsc_sortAsc (col : List Int) : sortAsc (sortAsc col) = sortAsc col :=
  List.Sorted.insertionSort_eq (sortAsc_sorted col)

/-! ### Reparsing serialized text -/

lemma space_not_mem_oldTok (r : Int) : ' ' ∉ intRepr r ++ [':', '0'] := by
  intro h
  rcases List.mem_append.1 h with h1 | h1
  · exact not_mem_intRepr r ' ' (by decide) (by decide) h1
  · simp at h1

lemma colon_not_mem_intRepr (r : Int) : ':' ∉ intRepr r :=
  not_mem_intRepr r ':' (by decide) (by decide)

lemma pySplit_space_oldColLine (col : List Int) (h : col ≠ []) :
    pySplit ' ' (oldColLine col) = col.map (fun r => intRepr r ++ [':', '0']) := by
  rw [oldColLine]
  refine pySplit_joinSep ' ' _ (by simpa using h) ?_
  intro t ht
  rcases List.mem_map.1 ht with ⟨r, _, rfl⟩
  exact space_not_mem_oldTok r

lemma parse_old_token (r : Int) :
    pyInt (pySplit ':' (intRepr r ++ [':', '0'])).headI = some r := by
  have : intRepr r ++ [':', '0'] = intRepr r ++ ':' :: ['0'] := rfl
  rw [this, pySplit_append_sep ':' (intRepr r) ['0'] (colon_not_mem_intRepr r)]
  rw [List.headI_cons, pyInt_intRepr]

lemma parse_oldColLine (col : List Int) (h : col ≠ []) :
    mapOpt (fun r => pyInt (pySplit ':' r).headI) (pySplit ' ' (oldColLine col)) =
      some col := by
  rw [pySplit_space_oldColLine col h, mapOpt_map]
  have := mapOpt_congr_some
    (fun x => pyInt (pySplit ':' (intRepr x ++ [':', '0'])).headI) id col
    (fun r _ => parse_old_token r)
  simpa using this

lemma newline_not_mem_oldColLine (col : List Int) : '\n' ∉ oldColLine col := by
  intro h
  rcases mem_joinSep [' '] _ '\n' h with h1 | ⟨t, ht, hct⟩
  · simp at h1
  · rcases List.mem_map.1 ht with ⟨r, _, rfl⟩
    rcases List.mem_append.1 hct with h2 | h2
    · exact not_mem_intRepr r '\n' (by decide) (by decide) h2
    · simp at h2

lemma comma_not_mem_header_field (i : Int) : ',' ∉ intRepr i :=
  not_mem_intRepr i ',' (by decide) (by decide)

lemma oldHeader_fields (n k goal max_row : Int) (cnt : Nat) :
    pySplit ','
      (joinSep [','] [intRepr n, intRepr k, intRepr goal, intRepr max_row, natRepr cnt]) =
      [intRepr n, intRepr k, intRepr goal, intRepr max_row, natRepr cnt] := by
  refine pySplit_joinSep ',' _ (by simp) ?_
  intro t ht
  simp only [List.mem_cons, List.not_mem_nil, or_false] at ht
  rcases ht with rfl | rfl | rfl | rfl | rfl
  · exact comma_not_mem_header_field n
  · exact comma_not_mem_header_field k
  · exact comma_not_mem_header_field goal
  · exact comma_not_mem_header_field max_row
  · exact not_mem_natRepr cnt ',' (by decide)

lemma newline_not_mem_oldHeader (n k goal max_row : Int) (cnt : Nat) :
    '\n' ∉ joinSep [','] [intRepr n, intRepr k, intRepr goal, intRepr max_row, natRepr cnt] := by
  intro h
  rcases mem_joinSep [','] _ '\n' h with h1 | ⟨t, ht, hct⟩
  · simp at h1
  · simp only [List.mem_cons, List.not_mem_nil, or_false] at ht
    rcases ht with rfl | rfl | rfl | rfl | rfl
    · exact not_mem_intRepr n '\n' (by decide) (by decide) hct
    · exact not_mem_intRepr k '\n' (by decide) (by decide) hct
    · exact not_mem_intRepr goal '\n' (by decide) (by decide) hct
    · exact not_mem_intRepr max_row '\n' (by decide) (by decide) hct
    · exact not_mem_natRepr cnt '\n' (by decide) hct

/-- Serializing a board built from non-empty columns to the old format and
splitting the text back into lines reparses to the board built from the
ascending-sorted columns. -/
lemma old_roundtrip (n k goal : Int) (chips : List (List Int))
    (h1 : chips ≠ []) (h2 : ∀ col ∈ chips, col ≠ []) :
    ∃ s, Board.toString DataType.OLD (mkBoard n k chips goal) = some s ∧
      Board.fromString DataType.OLD (pySplit '\n' s) =
        some (mkBoard n k (chips.map sortAsc) goal) := by
  obtain ⟨M, hM⟩ := maxRowSpec_isSome chips h1 h2
  have hmr : Board.calc_max_row (mkBoard n k chips goal) = some M := by
    rw [calc_max_row_mkBoard, hM]
  have hts : Board.toString DataType.OLD (mkBoard n k chips goal) =
      some (joinSep [',']
        [intRepr n, intRepr k, intRepr goal, intRepr M,
         natRepr (Board.calc_num_chips (mkBoard n k chips goal))]
        ++ '\n' :: joinSep ['\n'] ((chips.map sortAsc).map oldColLine)) := by
    simp only [Board.toString, mkBoard]
    simp only [mkBoard] at hmr
    simp only [hmr, Option.map_some']
  refine ⟨_, hts, ?_⟩
  have hlines : pySplit '\n'
      (joinSep [',']
        [intRepr n, intRepr k, intRepr goal, intRepr M,
         natRepr (Board.calc_num_chips (mkBoard n k chips goal))]
        ++ '\n' :: joinSep ['\n'] ((chips.map sortAsc).map oldColLine)) =
      joinSep [',']
        [intRepr n, intRepr k, intRepr goal, intRepr M,
         natRepr (Board.calc_num_chips (mkBoard n k chips goal))]
        :: (chips.map sortAsc).map oldColLine := by
    rw [pySplit_append_sep '\n' _ _
      (newline_not_mem_oldHeader n k goal M (Board.calc_num_chips (mkBoard n k chips goal)))]
    congr 1
    refine pySplit_joinSep '\n' _ (by simp [h1]) ?_
    intro t ht
    rcases List.mem_map.1 ht with ⟨col, _, rfl⟩
    exact newline_not_mem_oldColLine col
  rw [hlines]
  have hhead : mapOpt pyInt
      [intRepr n, intRepr k, intRepr goal, intRepr M,
       natRepr (Board.calc_num_chips (mkBoard n k chips goal))] =
      some [n, k, goal, M, Int.ofNat (Board.calc_num_chips (mkBoard n k chips goal))] := by
    simp [mapOpt, pyInt_intRepr, pyInt_natRepr]
  have hbody : mapOpt
      (fun column => mapOpt (fun r => pyInt (pySplit ':' r).headI) (pySplit ' ' column))
      ((chips.map sortAsc).map oldColLine) = some (chips.map sortAsc) := by
    rw [mapOpt_map]
    have := mapOpt_congr_some
      (fun col => mapOpt (fun r => pyInt (pySplit ':' r).headI) (pySplit ' ' (oldColLine col)))
      id (chips.map sortAsc)
      (fun col hc => by
        rcases List.mem_map.1 hc with ⟨col0, hc0, rfl⟩
        simpa using parse_oldColLine (sortAsc col0) (sortAsc_ne_nil col0 (h2 col0 hc0)))
    simpa using this
  simp only [Board.fromString, oldHeader_fields, hhead, hbody, Option.map_some']

/-- Every board successfully parsed from the old format was built by the
constructor from columns that are all non-empty. -/
lemma fromString_old_inv (lines : List (List Char)) (b : Board)
    (h : Board.fromString DataType.OLD lines = some b) :
    ∃ n k goal chips, b = mkBoard n k chips goal ∧ ∀ col ∈ chips, col ≠ [] := by
  cases lines with
  | nil => simp [Board.fromString] at h
  | cons l0 rest =>
    simp only [Board.fromString] at h
    rcases hh : mapOpt pyInt (pySplit ',' l0) with _ | vals
    · rw [hh] at h; simp at h
    rw [hh] at h
    rcases vals with _ | ⟨v1, vs⟩
    · simp at h
    rcases vs with _ | ⟨v2, vs⟩
    · simp at h
    rcases vs with _ | ⟨v3, vs⟩
    · simp at h
    rcases vs with _ | ⟨v4, vs⟩
    · simp at h
    rcases vs with _ | ⟨v5, vs⟩
    · simp at h
    rcases vs with _ | ⟨v6, vs⟩
    · have h2 : Option.map (fun chips => mkBoard v1 v2 chips v3)
          (mapOpt
            (fun column => mapOpt (fun r => pyInt (pySplit ':' r).headI) (pySplit ' ' column))
            rest) = some b := h
      rcases hmo : (mapOpt
          (fun column => mapOpt (fun r => pyInt (pySplit ':' r).headI) (pySplit ' ' column))
          rest) with _ | chips
      · rw [hmo] at h2; exact absurd h2 (by simp)
      · rw [hmo] at h2
        have h3 : some (mkBoard v1 v2 chips v3) = some b := h2
        have h4 : mkBoard v1 v2 chips v3 = b := by injection h3
        refine ⟨v1, v2, v3, chips, h4.symm, ?_⟩
        intro col hcol hnil
        obtain ⟨column, _, hparse⟩ := mapOpt_mem _ rest chips hmo col hcol
        have hlen := mapOpt_length _ _ _ hparse
        rw [hnil] at hlen
        exact pySplit_ne_nil ' ' column (List.length_eq_zero.1 hlen.symm)
    · simp at h

/-! ### Record splitting -/

lemma fromString_nil (datatype : DataType) : Board.fromString datatype [] = none := by
  cases datatype <;> rfl

lemma toRecordsAux_cons_sep (sep : List Char) (buffer : List (List Char))
    (l : List Char) (ls : List (List Char)) (h : pyStrip l = sep) :
    toRecordsAux sep buffer (l :: ls) = buffer :: toRecordsAux sep [] ls := by
  simp [toRecordsAux, h]

lemma toRecordsAux_cons_content (sep : List Char) (buffer : List (List Char))
    (l : List Char) (ls : List (List Char)) (h : pyStrip l ≠ sep) :
    toRecordsAux sep buffer (l :: ls) = toRecordsAux sep (buffer ++ [pyStrip l]) ls := by
  simp [toRecordsAux, h]

lemma file_to_boards_sep_head (datatype : DataType) (sep l : List Char)
    (rest : List (List Char)) (h : pyStrip l = sep) :
    file_to_boards datatype sep (l :: rest) = none := by
  rw [file_to_boards, toRecords, toRecordsAux_cons_sep sep [] l rest h]
  exact mapOpt_eq_none_of_mem _ _ [] (List.mem_cons_self _ _) (fromString_nil datatype)

lemma empty_record_mem_adjacent (sep l1 l2 : List Char)
    (h1 : pyStrip l1 = sep) (h2 : pyStrip l2 = sep) :
    ∀ (pre : List (List Char)) (buffer : List (List Char)) (rest : List (List Char)),
      [] ∈ toRecordsAux sep buffer (pre ++ l1 :: l2 :: rest) := by
  intro pre
  induction pre with
  | nil =>
    intro buffer rest
    rw [List.nil_append, toRecordsAux_cons_sep sep buffer l1 _ h1,
      toRecordsAux_cons_sep sep [] l2 _ h2]
    exact List.mem_cons_of_mem _ (List.mem_cons_self _ _)
  | cons p ps ih =>
    intro buffer rest
    rw [List.cons_append]
    by_cases hp : pyStrip p = sep
    · rw [toRecordsAux_cons_sep sep buffer p _ hp]
      exact List.mem_cons_of_mem _ (ih [] rest)
    · rw [toRecordsAux_cons_content sep buffer p _ hp]
      exact ih (buffer ++ [pyStrip p]) rest

lemma file_to_boards_adjacent_seps (datatype : DataType) (sep l1 l2 : List Char)
    (pre rest : List (List Char)) (h1 : pyStrip l1 = sep) (h2 : pyStrip l2 = sep) :
    file_to_boards datatype sep (pre ++ l1 :: l2 :: rest) = none := by
  rw [file_to_boards, toRecords]
  exact mapOpt_eq_none_of_mem _ _ []
    (empty_record_mem_adjacent sep l1 l2 h1 h2 pre [] rest) (fromString_nil datatype)

lemma toRecordsAux_eq_exact (sep : List Char) :
    ∀ (lines : List (List Char)) (buffer : List (List Char)),
      toRecordsAux sep buffer lines = exactSplitRecordsAux sep buffer (lines.map pyStrip) := by
  intro lines
  induction lines with
  | nil => intro buffer; rfl
  | cons l ls ih =>
    intro buffer
    by_cases h : pyStrip l = sep
    · rw [List.map_cons, toRecordsAux_cons_sep sep buffer l ls h,
        show exactSplitRecordsAux sep buffer (pyStrip l :: ls.map pyStrip) =
          buffer :: exactSplitRecordsAux sep [] (ls.map pyStrip) by
            simp [exactSplitRecordsAux, h],
        ih []]
    · rw [List.map_cons, toRecordsAux_cons_content sep buffer l ls h,
        show exactSplitRecordsAux sep buffer (pyStrip l :: ls.map pyStrip) =
          exactSplitRecordsAux sep (buffer ++ [pyStrip l]) (ls.map pyStrip) by
            simp [exactSplitRecordsAux, h],
        ih (buffer ++ [pyStrip l])]

/-! ### Old and new body lines are reverses of each other -/

lemma space_not_mem_intRepr (r : Int) : ' ' ∉ intRepr r :=
  not_mem_intRepr r ' ' (by decide) (by decide)

lemma pySplit_space_newColLine (col : List Int) (h : col ≠ []) :
    pySplit ' ' (newColLine col) = col.map intRepr := by
  rw [newColLine]
  refine pySplit_joinSep ' ' _ (by simpa using h) ?_
  intro t ht
  rcases List.mem_map.1 ht with ⟨r, _, rfl⟩
  exact space_not_mem_intRepr r

lemma old_token_head (r : Int) :
    (pySplit ':' (intRepr r ++ [':', '0'])).headI = intRepr r := by
  rw [show intRepr r ++ [':', '0'] = intRepr r ++ ':' :: ['0'] from rfl,
    pySplit_append_sep ':' _ _ (colon_not_mem_intRepr r), List.headI_cons]

lemma col_tokens_reverse (col : List Int) :
    (pySplit ' ' (oldColLine (sortAsc col))).map (fun t => (pySplit ':' t).headI) =
      (pySplit ' ' (newColLine (sortDesc col))).reverse := by
  by_cases h : col = []
  · subst h; rfl
  · rw [pySplit_space_oldColLine _ (sortAsc_ne_nil col h),
      pySplit_space_newColLine _ (sortDesc_ne_nil col h),
      List.map_map, ← List.map_reverse, ← sortAsc_eq_reverse_sortDesc]
    exact List.map_congr_left (fun r _ => old_token_head r)

lemma maxRowSpec_isSome_iff (chips : List (List Int)) :
    (maxRowSpec chips).isSome = true ↔ chips ≠ [] ∧ ∀ col ∈ chips, col ≠ [] := by
  constructor
  · intro h
    constructor
    · intro hnil
      subst hnil
      simp [maxRowSpec, mapOpt] at h
    · intro col hcol hnil
      have hnone : mapOpt List.max? chips = none :=
        mapOpt_eq_none_of_mem _ _ col hcol (by rw [hnil]; rfl)
      rw [maxRowSpec, hnone] at h
      simp at h
  · rintro ⟨h1, h2⟩
    obtain ⟨M, hM⟩ := maxRowSpec_isSome chips h1 h2
    rw [hM]
    rfl

/-! ### Claim theorems -/

/-- Claim C1: all-or-nothing conversion — for every input in which at least
one record fails to parse, nothing is written to the output file, because
`__main__` runs `file_to_boards` to completion before `boards_to_file`
opens the output file. -/
theorem C1_all_or_nothing (d : Direction) (goalStr isep osep : List Char)
    (input : List (List Char))
    (h : ∃ r ∈ toRecords isep input, Board.fromString (srcType d) r = none) :
    convert_writes d goalStr isep osep input = [] := by
  obtain ⟨r, hr, hfr⟩ := h
  rw [convert_writes, file_to_boards, mapOpt_eq_none_of_mem _ _ r hr hfr]

/-- Claim C1 witness: a concrete input with a malformed header writes
nothing. -/
theorem C1_all_or_nothing_witness :
    (∃ r ∈ toRecords "---".data ["1,1,0,0,x".data],
        Board.fromString (srcType Direction.oldToNew) r = none) ∧
      convert_writes Direction.oldToNew "0".data "---".data "---".data
        ["1,1,0,0,x".data] = [] :=
  ⟨by decide,
   C1_all_or_nothing Direction.oldToNew "0".data "---".data "---".data
     ["1,1,0,0,x".data] (by decide)⟩

/-- Claim C2 counterexample: on the board with columns `[[1], [2]]` the
code's `calc_max_row` returns the maximum (`2`) of the per-column heads
after descending sort, not the minimum (`1`) as the claim states. -/
theorem C2_max_row_counterexample :
    Board.calc_max_row (mkBoard 2 2 [[1], [2]] 0) = some 2 ∧
      calcMaxRowClaim (mkBoard 2 2 [[1], [2]] 0) = some 1 ∧
      Board.calc_max_row (mkBoard 2 2 [[1], [2]] 0) ≠
        calcMaxRowClaim (mkBoard 2 2 [[1], [2]] 0) := by
  refine ⟨by decide, by decide, by decide⟩

/-- Claim C2 (amended): for every Board, the derived maxRow equals the
maximum (not minimum), across columns, of each column's first element
after sorting that column in descending order — equivalently, the maximum
over columns of the column's largest value. -/
theorem C2_max_row_eq_max (n k goal : Int) (chips : List (List Int)) :
    Board.calc_max_row (mkBoard n k chips goal) = maxRowSpec chips :=
  calc_max_row_mkBoard n k goal chips

/-- Claim C5 counterexample: a line reading `" ---"` differs from the
separator `"---"` only in whitespace, so the claim says it is record
content; the code strips it and treats it as a separator, producing an
empty record instead of a one-line record. -/
theorem C5_records_counterexample :
    toRecords "---".data [" ---".data] = [[]] ∧
      exactSplitRecords "---".data [" ---".data] = [[" ---".data]] ∧
      toRecords "---".data [" ---".data] ≠
        exactSplitRecords "---".data [" ---".data] := by
  refine ⟨by decide, by decide, by decide⟩

/-- Claim C5 (amended): the record reader splits exactly on lines that,
after stripping leading and trailing whitespace, equal the separator, and
buffers every content line in stripped form: it behaves as exact splitting
applied to the stripped lines. -/
theorem C5_records_strip (sep : List Char) (lines : List (List Char)) :
    toRecords sep lines = exactSplitRecords sep (lines.map pyStrip) :=
  toRecordsAux_eq_exact sep lines []

/-- Claim C6: for every board built by the constructor (as the parser
does, from the columns as parsed from the input), the derived chip count —
which both serializers write into the output header — equals the count of
values `>= 0` summed over the columns. -/
theorem C6_num_chips (n k goal : Int) (chips : List (List Int)) :
    Board.calc_num_chips (mkBoard n k chips goal) = numChipsSpec chips :=
  calc_num_chips_mkBoard n k goal chips

/-- Claim C8: for every Board, each column's old-format body line with the
`:0` suffixes removed (taking each token's part before the `:`, as the
parser does) is the reverse of the corresponding column's new-format body
line. -/
theorem C8_body_lines_reverse (n k goal : Int) (chips : List (List Int)) :
    (mkBoard n k chips goal).chips_asc.map
        (fun col => (pySplit ' ' (oldColLine col)).map (fun t => (pySplit ':' t).headI)) =
      (mkBoard n k chips goal).chips_desc.map
        (fun col => (pySplit ' ' (newColLine col)).reverse) := by
  simp only [mkBoard, List.map_map, Function.comp]
  exact List.map_congr_left (fun col _ => col_tokens_reverse col)

/-- Claim C9 counterexample: the zero-column board — which the parser
itself produces from the header-only record `"0,0,0,0,0"` — makes
old-format serialization raise (`max` of an empty sequence), so
serialization is not total. -/
theorem C9_total_counterexample :
    Board.fromString DataType.OLD ["0,0,0,0,0".data] = some (mkBoard 0 0 [] 0) ∧
      Board.toString DataType.OLD (mkBoard 0 0 [] 0) = none := by
  refine ⟨by decide, by decide⟩

/-- Claim C9 (amended): new-format serialization is total, and old-format
serialization succeeds exactly when the board has at least one column and
no empty column. -/
theorem C9_toString_total (n k goal : Int) (chips : List (List Int)) :
    (Board.toString DataType.NEW (mkBoard n k chips goal)).isSome = true ∧
      ((Board.toString DataType.OLD (mkBoard n k chips goal)).isSome = true ↔
        chips ≠ [] ∧ ∀ col ∈ chips, col ≠ []) := by
  constructor
  · rfl
  · have hiso : (Board.toString DataType.OLD (mkBoard n k chips goal)).isSome =
        (Board.calc_max_row (mkBoard n k chips goal)).isSome := by
      simp only [Board.toString]
      rcases Board.calc_max_row (mkBoard n k chips goal) with _ | M <;> rfl
    rw [hiso, calc_max_row_mkBoard]
    exact maxRowSpec_isSome_iff chips

/-- Claim C10 counterexample: with the separator `" 1,1,0,0,1 "` (which
carries surrounding whitespace) and an input whose first line equals that
separator verbatim, the reader strips the line, treats it as record
content, and the run succeeds — `fromString` is never applied to an empty
record and the run does not fail as the claim asserts. -/
theorem C10_empty_record_counterexample :
    [] ∉ toRecords " 1,1,0,0,1 ".data [" 1,1,0,0,1 ".data, "0:0".data] ∧
      file_to_boards DataType.OLD " 1,1,0,0,1 ".data
        [" 1,1,0,0,1 ".data, "0:0".data] = some [mkBoard 1 1 [[0]] 0] := by
  refine ⟨by decide, by decide⟩

/-- Claim C10 (amended): whenever a line strips (of leading and trailing
whitespace, the reader's comparison) to the separator, the buffered record
is handed to `fromString` even if empty; `fromString` fails on an empty
record, so an input whose first line strips to the separator, or with two
adjacent lines stripping to the separator, makes the run fail. -/
theorem C10_empty_record (datatype : DataType) :
    Board.fromString datatype [] = none ∧
      (∀ (sep l : List Char) (rest : List (List Char)), pyStrip l = sep →
        file_to_boards datatype sep (l :: rest) = none) ∧
      (∀ (sep l1 l2 : List Char) (pre rest : List (List Char)),
        pyStrip l1 = sep → pyStrip l2 = sep →
        file_to_boards datatype sep (pre ++ l1 :: l2 :: rest) = none) :=
  ⟨fromString_nil datatype,
   fun sep l rest h => file_to_boards_sep_head datatype sep l rest h,
   fun sep l1 l2 pre rest h1 h2 =>
     file_to_boards_adjacent_seps datatype sep l1 l2 pre rest h1 h2⟩

/-- Claim C10 witness: a concrete input starting with a separator line
makes the run fail. -/
theorem C10_empty_record_witness :
    pyStrip "---".data = "---".data ∧
      file_to_boards DataType.OLD "---".data
        ["---".data, "1,1,0,0,1".data, "0:0".data] = none :=
  ⟨by decide,
   (C10_empty_record DataType.OLD).2.1 "---".data "---".data
     ["1,1,0,0,1".data, "0:0".data] (by decide)⟩

/-- Claim C3 counterexample: the board with columns `[[], [0]]` has at
least one non-empty column, yet old-format serialization raises (the
empty column's `[0]` access) and produces no text at all. -/
theorem C3_old_header_counterexample :
    (mkBoard 1 2 [[], [0]] 0).chips_asc = [[], [0]] ∧
      Board.toString DataType.OLD (mkBoard 1 2 [[], [0]] 0) = none := by
  refine ⟨by decide, by decide⟩

/-- Claim C3 (amended): for every Board with at least one column and all
columns non-empty, old-format serialization produces the header
`n,k,goal,maxRow,numChips` with maxRow the maximum over all columns of the
column's largest value, followed by one body line per column with values
ascending, each rendered `row:0`, space-joined. -/
theorem C3_old_serialization (n k goal : Int) (chips : List (List Int))
    (h1 : chips ≠ []) (h2 : ∀ col ∈ chips, col ≠ []) :
    ∃ M, maxRowSpec chips = some M ∧
      Board.toString DataType.OLD (mkBoard n k chips goal) =
        some (joinSep [',']
          [intRepr n, intRepr k, intRepr goal, intRepr M, natRepr (numChipsSpec chips)]
          ++ '\n' :: joinSep ['\n'] (chips.map (fun col => oldColLine (sortAsc col)))) := by
  obtain ⟨M, hM⟩ := maxRowSpec_isSome chips h1 h2
  refine ⟨M, hM, ?_⟩
  have hmr : Board.calc_max_row (mkBoard n k chips goal) = some M := by
    rw [calc_max_row_mkBoard, hM]
  have hcnt := calc_num_chips_mkBoard n k goal chips
  simp only [mkBoard] at hmr hcnt
  simp only [Board.toString, mkBoard, hmr, Option.map_some', hcnt, List.map_map,
    Function.comp]
  rfl

/-- Claim C3 witness: a concrete two-column board serializes to the
predicted text. -/
theorem C3_old_serialization_witness :
    (([[0, 2], [1]] : List (List Int)) ≠ [] ∧
        ∀ col ∈ ([[0, 2], [1]] : List (List Int)), col ≠ []) ∧
      ∃ M, maxRowSpec [[0, 2], [1]] = some M ∧
        Board.toString DataType.OLD (mkBoard 1 2 [[0, 2], [1]] 3) =
          some (joinSep [',']
            [intRepr 1, intRepr 2, intRepr 3, intRepr M, natRepr (numChipsSpec [[0, 2], [1]])]
            ++ '\n' :: joinSep ['\n']
              (([[0, 2], [1]] : List (List Int)).map (fun col => oldColLine (sortAsc col)))) :=
  ⟨⟨by decide, by decide⟩,
   C3_old_serialization 1 2 3 [[0, 2], [1]] (by decide) (by decide)⟩

/-- Claim C7 counterexample: the header-only record `"1,0,5,0,0"` parses
successfully (to a zero-column board), but re-serializing that board to
the old format raises, so the round trip does not yield a record at all. -/
theorem C7_roundtrip_counterexample :
    (Board.fromString DataType.OLD ["1,0,5,0,0".data]).isSome = true ∧
      (Board.fromString DataType.OLD ["1,0,5,0,0".data]).bind
        (fun b => Board.toString DataType.OLD b) = none := by
  refine ⟨by decide, by decide⟩

/-- Claim C7 (amended): for every old-format record text that parses
successfully to a board with at least one column, re-serializing the board
to the old format yields a record that parses to an equivalent board —
same n, k, goal and the same per-column multiset of non-negative row
values — even when the input header carried stale derived fields. -/
theorem C7_old_roundtrip (lines : List (List Char)) (b : Board)
    (hp : Board.fromString DataType.OLD lines = some b)
    (hc : b.chips_asc ≠ []) :
    ∃ s b', Board.toString DataType.OLD b = some s ∧
      Board.fromString DataType.OLD (pySplit '\n' s) = some b' ∧
      b'.n = b.n ∧ b'.k = b.k ∧ b'.goal = b.goal ∧
      b'.chips_asc.map
          (fun col => ((col.filter (fun r => decide (0 ≤ r)) : List Int) : Multiset Int)) =
        b.chips_asc.map
          (fun col => ((col.filter (fun r => decide (0 ≤ r)) : List Int) : Multiset Int)) := by
  obtain ⟨n, k, goal, chips, rfl, hcols⟩ := fromString_old_inv lines b hp
  have hchips : chips ≠ [] := by
    intro hnil
    rw [hnil] at hc
    exact hc rfl
  obtain ⟨s, hts, hps⟩ := old_roundtrip n k goal chips hchips hcols
  refine ⟨s, mkBoard n k (chips.map sortAsc) goal, hts, hps, rfl, rfl, rfl, ?_⟩
  have hasc : (mkBoard n k (chips.map sortAsc) goal).chips_asc =
      (mkBoard n k chips goal).chips_asc := by
    simp only [mkBoard, List.map_map]
    exact List.map_congr_left (fun col _ => by
      simp only [Function.comp]
      exact sortAsc_sortAsc col)
  rw [hasc]

/-- Claim C7 witness: a concrete one-column record round-trips. -/
theorem C7_old_roundtrip_witness :
    Board.fromString DataType.OLD ["2,1,3,9,9".data, "1:0 0:0".data] =
        some (mkBoard 2 1 [[1, 0]] 3) ∧
      (mkBoard 2 1 [[1, 0]] 3).chips_asc ≠ [] ∧
      (∃ s b', Board.toString DataType.OLD (mkBoard 2 1 [[1, 0]] 3) = some s ∧
        Board.fromString DataType.OLD (pySplit '\n' s) = some b' ∧
        b'.n = (mkBoard 2 1 [[1, 0]] 3).n ∧ b'.k = (mkBoard 2 1 [[1, 0]] 3).k ∧
        b'.goal = (mkBoard 2 1 [[1, 0]] 3).goal ∧
        b'.chips_asc.map
            (fun col => ((col.filter (fun r => decide (0 ≤ r)) : List Int) : Multiset Int)) =
          (mkBoard 2 1 [[1, 0]] 3).chips_asc.map
            (fun col => ((col.filter (fun r => decide (0 ≤ r)) : List Int) : Multiset Int))) :=
  ⟨by decide, by decide,
   C7_old_roundtrip ["2,1,3,9,9".data, "1:0 0:0".data] (mkBoard 2 1 [[1, 0]] 3)
     (by decide) (by decide)⟩

/-- Claim C4 counterexample: the column token `"5"` contains no `:` at
all, yet the record parses successfully — `split(":")[0]` returns the
whole token and `int` accepts it — where the claim says the parse fails. -/
theorem C4_no_colon_counterexample :
    ':' ∉ "5".data ∧
      Board.fromString DataType.OLD ["1,1,0,0,1".data, "5".data] =
        some (mkBoard 1 1 [[5]] 0) := by
  refine ⟨by decide, by decide⟩

/-- Claim C4 (amended): old-format parsing fails exactly when the record
is empty, the header does not split into exactly 5 comma-separated
integers, or some column token's part before the first `:` (the whole
token when there is no `:`) is not an integer; in particular a token with
no `:` parses whenever its text is an integer. -/
theorem C4_old_parse_failure (lines : List (List Char)) :
    Board.fromString DataType.OLD lines = none ↔
      lines = [] ∨
        ∃ l0 rest, lines = l0 :: rest ∧
          ((¬ ∃ vals, mapOpt pyInt (pySplit ',' l0) = some vals ∧ vals.length = 5) ∨
            ∃ column ∈ rest, ∃ tok ∈ pySplit ' ' column,
              pyInt (pySplit ':' tok).headI = none) := by
  cases lines with
  | nil => simp [Board.fromString]
  | cons l0 rest =>
    simp only [Board.fromString]
    rcases hh : mapOpt pyInt (pySplit ',' l0) with _ | vals
    · refine iff_of_true rfl (Or.inr ⟨l0, rest, rfl, Or.inl ?_⟩)
      rintro ⟨vals, hv, _⟩
      rw [hh] at hv
      exact absurd hv (by simp)
    · rcases vals with _ | ⟨v1, vs⟩
      · refine iff_of_true rfl (Or.inr ⟨l0, rest, rfl, Or.inl ?_⟩)
        rintro ⟨vals', hv, hlen⟩
        rw [hh] at hv
        obtain rfl : ([] : List Int) = vals' := by injection hv
        simp at hlen
      rcases vs with _ | ⟨v2, vs⟩
      · refine iff_of_true rfl (Or.inr ⟨l0, rest, rfl, Or.inl ?_⟩)
        rintro ⟨vals', hv, hlen⟩
        rw [hh] at hv
        obtain rfl : [v1] = vals' := by injection hv
        simp at hlen
      rcases vs with _ | ⟨v3, vs⟩
      · refine iff_of_true rfl (Or.inr ⟨l0, rest, rfl, Or.inl ?_⟩)
        rintro ⟨vals', hv, hlen⟩
        rw [hh] at hv
        obtain rfl : [v1, v2] = vals' := by injection hv
        simp at hlen
      rcases vs with _ | ⟨v4, vs⟩
      · refine iff_of_true rfl (Or.inr ⟨l0, rest, rfl, Or.inl ?_⟩)
        rintro ⟨vals', hv, hlen⟩
        rw [hh] at hv
        obtain rfl : [v1, v2, v3] = vals' := by injection hv
        simp at hlen
      rcases vs with _ | ⟨v5, vs⟩
      · refine iff_of_true rfl (Or.inr ⟨l0, rest, rfl, Or.inl ?_⟩)
        rintro ⟨vals', hv, hlen⟩
        rw [hh] at hv
        obtain rfl : [v1, v2, v3, v4] = vals' := by injection hv
        simp at hlen
      rcases vs with _ | ⟨v6, vs⟩
      · show ((mapOpt (fun column =>
              mapOpt (fun r => pyInt (pySplit ':' r).headI) (pySplit ' ' column))
            rest).map (fun chips => mkBoard v1 v2 chips v3) = none) ↔ _
        constructor
        · intro hnone
          refine Or.inr ⟨l0, rest, rfl, Or.inr ?_⟩
          have hmo : mapOpt (fun column =>
              mapOpt (fun r => pyInt (pySplit ':' r).headI) (pySplit ' ' column))
              rest = none := by
            rcases hmo2 : mapOpt (fun column =>
                mapOpt (fun r => pyInt (pySplit ':' r).headI) (pySplit ' ' column))
                rest with _ | chips
            · rfl
            · rw [hmo2] at hnone
              exact absurd hnone (by simp)
          rcases (mapOpt_eq_none_iff _ _).1 hmo with ⟨column, hcmem, hcp⟩
          exact ⟨column, hcmem, (mapOpt_eq_none_iff _ _).1 hcp⟩
        · rintro (habs | ⟨l0', rest', heq, hbad | hbad⟩)
          · exact absurd habs (by simp)
          · exfalso
            apply hbad
            injection heq with e1 e2
            refine ⟨[v1, v2, v3, v4, v5], ?_, by simp⟩
            rw [← e1]
            exact hh
          · injection heq with e1 e2
            subst e2
            obtain ⟨column, hcmem, tok, htokmem, htok⟩ := hbad
            rw [mapOpt_eq_none_of_mem
              (fun column => mapOpt (fun r => pyInt (pySplit ':' r).headI) (pySplit ' ' column))
              rest column hcmem
              (mapOpt_eq_none_of_mem (fun r => pyInt (pySplit ':' r).headI)
                (pySplit ' ' column) tok htokmem htok)]
            rfl
      · refine iff_of_true rfl (Or.inr ⟨l0, rest, rfl, Or.inl ?_⟩)
        rintro ⟨vals', hv, hlen⟩
        rw [hh] at hv
        obtain rfl : v1 :: v2 :: v3 :: v4 :: v5 :: v6 :: vs = vals' := by injection hv
        simp at hlen
